import Mathlib

/-
  Verification of the DRRMS database migration runner
  (src/migrations/migrate.py) against its natural-language specification.

  The runner is embedded shallowly:
  * Python strings are modelled as `List Char` (sequences of code points);
    Python string primitives (`split`, `strip`, `startswith`, `endswith`,
    substring containment `in`, `replace`) are translated one by one.
  * The `_migrations` tracking table is a list of rows; the two
    `INSERT ... ON DUPLICATE KEY UPDATE` statements of `apply_migration`
    become explicit upsert functions on that list.
  * The database connection is an oracle `Env`: a map from filenames to
    file contents (`open`/`read`) and a map from statement text to the
    outcome of `cursor.execute` (success, or an error with a message).
  * MySQL's `CURRENT_TIMESTAMP` is a logical clock `DB.now`, ticked once
    per apply attempt.
  * Wall-clock execution time is not modelled (recorded as 0) and the MD5
    digest is abstracted as the identity on content: no claim depends on
    either value, only on which columns the runner writes.
-/

namespace Migrate

/-- Python strings are sequences of code points. -/
abbrev PyStr := List Char

/-- Coerce a Lean string literal to the `List Char` model. -/
def str (s : String) : PyStr := s.data

/- ### Python string primitives -/

/-- Python `s.startswith(p)`: `startsWithList p s` is true when `p` is an
initial segment of `s`. -/
def startsWithList : PyStr → PyStr → Bool
  | [], _ => true
  | _ :: _, [] => false
  | p :: ps, c :: cs => p == c && startsWithList ps cs

/-- Python `s.endswith(suf)`. -/
def endsWithList (suf s : PyStr) : Bool :=
  startsWithList suf.reverse s.reverse

/-- Python `pat in s`: substring containment. -/
def containsSubstring (pat : PyStr) : PyStr → Bool
  | [] => startsWithList pat []
  | c :: cs => startsWithList pat (c :: cs) || containsSubstring pat cs

/-- Python `str.split(sep)` for a one-character separator: `''.split(';') = ['']`,
`';'.split(';') = ['', '']`, etc. -/
def splitOnChar (sep : Char) : PyStr → List PyStr
  | [] => [[]]
  | c :: cs =>
    if c = sep then [] :: splitOnChar sep cs
    else
      match splitOnChar sep cs with
      | [] => [[c]]
      | r :: rs => (c :: r) :: rs

/-- ASCII whitespace stripped by Python `str.strip()` (the Unicode-only
whitespace code points never occur in the inputs considered here). -/
def pyIsSpace (c : Char) : Bool :=
  c = ' ' || c = '\t' || c = '\n' || c = '\r' || c = '\x0b' || c = '\x0c'

/-- Python `s.strip()`. -/
def stripList (s : PyStr) : PyStr :=
  ((s.dropWhile pyIsSpace).reverse.dropWhile pyIsSpace).reverse

/-- Python `filename.replace('.sql', '')` (line 70 of migrate.py): removes
every occurrence of `.sql`, scanning left to right. -/
def removeSqlOccurrences : PyStr → PyStr
  | [] => []
  | '.' :: 's' :: 'q' :: 'l' :: rest => removeSqlOccurrences rest
  | c :: cs => c :: removeSqlOccurrences cs

/- ### Lexicographic string order (Python `sorted` on filenames) -/

/-- Python string `<`: lexicographic comparison by code point. -/
def lexLt : PyStr → PyStr → Bool
  | [], [] => false
  | [], _ :: _ => true
  | _ :: _, [] => false
  | a :: as, b :: bs =>
    if a < b then true
    else if b < a then false
    else lexLt as bs

/-- The non-strict order corresponding to `lexLt`; `sorted` arranges the
listing into `lexLe`-ascending order. -/
def lexLe (a b : PyStr) : Prop := lexLt b a = false

instance : DecidableRel lexLe := fun a b =>
  inferInstanceAs (Decidable (lexLt b a = false))

theorem lexLt_irrefl : ∀ a : PyStr, lexLt a a = false
  | [] => rfl
  | c :: cs => by
    simp only [lexLt, lt_irrefl, if_false]
    exact lexLt_irrefl cs

theorem lexLt_cons (a b : Char) (as bs : PyStr) :
    lexLt (a :: as) (b :: bs) =
      if a < b then true else if b < a then false else lexLt as bs := rfl

theorem lexLt_trans : ∀ a b c : PyStr,
    lexLt a b = true → lexLt b c = true → lexLt a c = true
  | [], [], _, h, _ => by simp [lexLt] at h
  | [], _ :: _, [], _, h => by simp [lexLt] at h
  | [], _ :: _, _ :: _, _, _ => rfl
  | _ :: _, [], _, h, _ => by simp [lexLt] at h
  | _ :: _, _ :: _, [], _, h => by simp [lexLt] at h
  | a :: as, b :: bs, c :: cs, h1, h2 => by
    rw [lexLt_cons] at h1 h2 ⊢
    rcases lt_trichotomy a b with hab | hab | hab
    · rcases lt_trichotomy b c with hbc | hbc | hbc
      · rw [if_pos (lt_trans hab hbc)]
      · subst hbc
        rw [if_pos hab]
      · rw [if_neg (asymm hbc), if_pos hbc] at h2
        exact absurd h2 Bool.false_ne_true
    · subst hab
      rcases lt_trichotomy a c with hac | hac | hac
      · rw [if_pos hac]
      · subst hac
        rw [if_neg (lt_irrefl a), if_neg (lt_irrefl a)] at h1 h2 ⊢
        exact lexLt_trans as bs cs h1 h2
      · rw [if_neg (asymm hac), if_pos hac] at h2
        exact absurd h2 Bool.false_ne_true
    · rw [if_neg (asymm hab), if_pos hab] at h1
      exact absurd h1 Bool.false_ne_true

theorem lexLt_antisymm : ∀ a b : PyStr,
    lexLt a b = false → lexLt b a = false → a = b
  | [], [], _, _ => rfl
  | [], _ :: _, h, _ => by simp [lexLt] at h
  | _ :: _, [], _, h => by simp [lexLt] at h
  | a :: as, b :: bs, h1, h2 => by
    rw [lexLt_cons] at h1 h2
    rcases lt_trichotomy a b with hab | hab | hab
    · rw [if_pos hab] at h1
      exact Bool.noConfusion h1
    · subst hab
      rw [if_neg (lt_irrefl a), if_neg (lt_irrefl a)] at h1 h2
      rw [lexLt_antisymm as bs h1 h2]
    · rw [if_pos hab] at h2
      exact Bool.noConfusion h2

theorem lexLt_asymm (a b : PyStr) (h : lexLt a b = true) : lexLt b a = false := by
  cases hx : lexLt b a
  · rfl
  · have := lexLt_trans a b a h hx
    rw [lexLt_irrefl] at this
    exact absurd this Bool.false_ne_true

instance : IsTotal PyStr lexLe where
  total a b := by
    cases h : lexLt b a
    · exact Or.inl h
    · exact Or.inr (lexLt_asymm b a h)

instance : IsTrans PyStr lexLe where
  trans a b c hab hbc := by
    have hab' : lexLt b a = false := hab
    have hbc' : lexLt c b = false := hbc
    show lexLt c a = false
    cases hx : lexLt c a
    · rfl
    · exfalso
      cases hy : lexLt a b
      · have hab2 : a = b := lexLt_antisymm a b hy hab'
        subst hab2
        rw [hx] at hbc'
        exact Bool.noConfusion hbc'
      · have := lexLt_trans c a b hx hy
        rw [this] at hbc'
        exact Bool.noConfusion hbc'

instance : IsAntisymm PyStr lexLe where
  antisymm a b hab hba := by
    have h1 : lexLt a b = false := hba
    have h2 : lexLt b a = false := hab
    exact lexLt_antisymm a b h1 h2

/- ### Discovery (get_pending_migrations, lines 64-76) -/

/-- Filter of line 68: `filename.endswith('.sql') and filename[0].isdigit()`.
Python `isdigit` is modelled for the ASCII digits that occur in filenames. -/
def isMigrationFile (filename : PyStr) : Bool :=
  endsWithList (str ".sql") filename &&
    (match filename with
     | [] => false
     | c :: _ => c.isDigit)

/-- Line 69: `version = filename.split('_')[0]`. -/
def versionOf (filename : PyStr) : PyStr :=
  match splitOnChar '_' filename with
  | [] => []
  | v :: _ => v

/-- A discovered migration: version, display name, and the file it came
from (the fixed directory prefix of `filepath` is dropped). -/
structure Migration where
  version : PyStr
  name : PyStr
  filename : PyStr
  deriving Repr, DecidableEq

/-- Python `sorted(os.listdir(MIGRATIONS_DIR))` (line 67): the directory
listing in lexicographic filename order. -/
def sortedListing (listing : List PyStr) : List PyStr :=
  List.insertionSort lexLe listing

/-- Function `get_pending_migrations` (lines 64-76): walk the sorted listing, keep
migration files, record version / name / file. -/
def get_pending_migrations (listing : List PyStr) : List Migration :=
  ((sortedListing listing).filter isMigrationFile).map
    (fun fn =>
      { version := versionOf fn, name := removeSqlOccurrences fn, filename := fn })

/-- The leading run of digits of a filename (the spec's description of the
version; compared against `versionOf`, which is what the code computes). -/
def leadingDigits (s : PyStr) : PyStr :=
  s.takeWhile Char.isDigit

/-- Parse a digit string as a number (used to state ascending numeric
version order at concrete inputs). -/
def digitsToNat (s : PyStr) : Nat :=
  s.foldl (fun n c => 10 * n + (c.toNat - 48)) 0

/- ### Tracking table (_migrations) -/

/-- The `status` enum of the `_migrations` table (line 53). -/
inductive MigStatus where
  | pending
  | applied
  | failed
  | rolled_back
  deriving Repr, DecidableEq

/-- One row of `_migrations`.  `applied_at` is a logical timestamp
(`TIMESTAMP DEFAULT CURRENT_TIMESTAMP`, no `ON UPDATE` clause);
`applied_by`, `checksum` and `execution_time_ms` are nullable. -/
structure Row where
  version : PyStr
  name : PyStr
  applied_at : Nat
  applied_by : Option PyStr
  checksum : Option PyStr
  execution_time_ms : Option Nat
  status : MigStatus
  deriving Repr, DecidableEq

/-- The database state visible to the runner: the tracking table plus a
logical clock giving the value of `CURRENT_TIMESTAMP`. -/
structure DB where
  rows : List Row
  now : Nat
  deriving Repr, DecidableEq

/-- Outcome of `cursor.execute` on one statement: success, or a
`mysql.connector.Error` whose message is inspected by the handler. -/
inductive ExecResult where
  | ok
  | err (msg : PyStr)
  deriving Repr, DecidableEq

/-- The runner's external collaborators: the filesystem (`open`/`read` of
a script, keyed by filename) and the connection (the outcome of executing
one SQL statement). -/
structure Env where
  files : PyStr → PyStr
  execStmt : PyStr → ExecResult

/-- Function `get_applied_migrations` (lines 58-61): the versions whose tracking
row has status `applied`. -/
def get_applied_migrations (db : DB) : List PyStr :=
  (db.rows.filter (fun r => r.status = MigStatus.applied)).map (fun r => r.version)

/-- MD5 abstracted as the identity on content (`get_file_checksum`,
lines 36-39); no claim depends on the digest value. -/
def md5 (content : PyStr) : PyStr := content

/-- The success-path upsert (lines 105-112):
`INSERT INTO _migrations (version, name, checksum, execution_time_ms, status, applied_by)
 VALUES (.., 'applied', USER())
 ON DUPLICATE KEY UPDATE status='applied', applied_at=CURRENT_TIMESTAMP,
 execution_time_ms=..`.
On a fresh insert `applied_at` takes its column default
`CURRENT_TIMESTAMP`; on a duplicate key only the three listed columns
change. -/
def recordApplied (db : DB) (version name checksum : PyStr) (exec_ms : Nat) : DB :=
  if db.rows.any (fun q => q.version = version) then
    { db with rows := db.rows.map (fun q =>
        if q.version = version then
          { q with
            status := MigStatus.applied
            applied_at := db.now
            execution_time_ms := some exec_ms }
        else q) }
  else
    { db with rows := db.rows ++
        [{ version := version
           name := name
           applied_at := db.now
           applied_by := some (str "USER()")
           checksum := some checksum
           execution_time_ms := some exec_ms
           status := MigStatus.applied }] }

/-- The failure-path upsert (lines 119-123):
`INSERT INTO _migrations (version, name, status) VALUES (.., 'failed')
 ON DUPLICATE KEY UPDATE status = 'failed'`.
On a duplicate key only `status` changes: `applied_at` has no `ON UPDATE`
clause and is not in the update list, so it keeps its old value. -/
def recordFailed (db : DB) (version name : PyStr) : DB :=
  if db.rows.any (fun q => q.version = version) then
    { db with rows := db.rows.map (fun q =>
        if q.version = version then { q with status := MigStatus.failed } else q) }
  else
    { db with rows := db.rows ++
        [{ version := version
           name := name
           applied_at := db.now
           applied_by := none
           checksum := none
           execution_time_ms := none
           status := MigStatus.failed }] }

/- ### apply_migration (lines 79-124) -/

/-- Line 90: `[s.strip() for s in sql_content.split(';') if s.strip()]`. -/
def splitStatements (content : PyStr) : List PyStr :=
  ((splitOnChar ';' content).map stripList).filter (fun s => !s.isEmpty)

/-- The guard of line 93:
`if statement and not statement.startswith('--') and not statement.startswith('/*')`. -/
def shouldExecute (s : PyStr) : Bool :=
  !s.isEmpty && !startsWithList (str "--") s && !startsWithList (str "/*") s

/-- Line 98: an error is swallowed when its text contains `Duplicate` or
`already exists` (`if 'Duplicate' not in str(e) and 'already exists' not in str(e): raise`). -/
def isIgnorableError (msg : PyStr) : Bool :=
  containsSubstring (str "Duplicate") msg || containsSubstring (str "already exists") msg

/-- The statement loop of lines 92-99.  Returns the statements actually
passed to `cursor.execute`, in order, and the message of the first
non-ignorable error if one aborted the loop (`none` when the script ran
to completion). -/
def runStatements (env : Env) : List PyStr → List PyStr × Option PyStr
  | [] => ([], none)
  | s :: rest =>
    if shouldExecute s then
      match env.execStmt s with
      | ExecResult.ok =>
        (s :: (runStatements env rest).1, (runStatements env rest).2)
      | ExecResult.err msg =>
        if isIgnorableError msg then
          (s :: (runStatements env rest).1, (runStatements env rest).2)
        else ([s], some msg)
    else runStatements env rest

/-- Whether a script runs to completion under `env` (success-or-swallowed
for every executed statement).  `apply_migration`'s return value; it does
not depend on the tracking table. -/
def scriptSucceeds (env : Env) (m : Migration) : Bool :=
  (runStatements env (splitStatements (env.files m.filename))).2.isNone

/-- Function `apply_migration` (lines 79-124): read the file, run the statement
loop, then upsert a tracking row — `applied` on success, `failed` when a
non-ignorable error aborted the script.  Returns the success flag, the
updated database and the executed-statement trace. -/
def apply_migration (env : Env) (db : DB) (m : Migration) :
    Bool × DB × List PyStr :=
  match (runStatements env (splitStatements (env.files m.filename))).2 with
  | none =>
    (true,
     recordApplied db m.version m.name (md5 (env.files m.filename)) 0,
     (runStatements env (splitStatements (env.files m.filename))).1)
  | some _ =>
    (false,
     recordFailed db m.version m.name,
     (runStatements env (splitStatements (env.files m.filename))).1)

/- ### migrate (lines 151-187) -/

/-- Advance the logical clock between apply attempts. -/
def tick (db : DB) : DB := { db with now := db.now + 1 }

/-- Observable events of a run: one `attempt` per `apply_migration` call
(with its executed-statement trace and outcome), and the final status
listing. -/
inductive Event where
  | attempt (m : Migration) (executed : List PyStr) (success : Bool)
  | statusReport (rows : List Row)
  deriving Repr, DecidableEq

/-- Function `show_status` (lines 127-148): every tracking row, ordered by version. -/
def rowLe (a b : Row) : Prop := lexLe a.version b.version

instance : DecidableRel rowLe := fun a b =>
  inferInstanceAs (Decidable (lexLt b.version a.version = false))

def show_status (db : DB) : List Row :=
  List.insertionSort rowLe db.rows

/-- The loop of lines 173-179: apply each pending migration in turn,
commit, and stop at the first failure. -/
def runLoop (env : Env) : DB → List Migration → DB × List Event
  | db, [] => (db, [])
  | db, m :: rest =>
    if (apply_migration env db m).1 then
      ((runLoop env (tick (apply_migration env db m).2.1) rest).1,
       Event.attempt m (apply_migration env db m).2.2 true ::
         (runLoop env (tick (apply_migration env db m).2.1) rest).2)
    else
      (tick (apply_migration env db m).2.1,
       [Event.attempt m (apply_migration env db m).2.2 false])

/-- Line 166: the apply set — pending scripts whose version is not yet
`applied`. -/
def migrateToApply (db : DB) (listing : List PyStr) : List Migration :=
  (get_pending_migrations listing).filter
    (fun m => !((get_applied_migrations db).contains m.version))

/-- Function `migrate` (lines 151-187): select the apply set, run the loop, then
produce the status listing unconditionally. -/
def migrate (env : Env) (listing : List PyStr) (db : DB) : DB × List Event :=
  ((runLoop env db (migrateToApply db listing)).1,
   (runLoop env db (migrateToApply db listing)).2 ++
     [Event.statusReport (show_status (runLoop env db (migrateToApply db listing)).1)])

/-- The migrations named by the `attempt` events of a run. -/
def attemptsOf (evs : List Event) : List Migration :=
  evs.filterMap (fun e =>
    match e with
    | Event.attempt m _ _ => some m
    | Event.statusReport _ => none)

/- ### CLI dispatch (lines 190-213) and rollback -/

/-- Function `rollback` (lines 190-195) prints remediation instructions; it takes
no cursor and performs no database operation, so the state is returned
unchanged alongside the printed lines. -/
def rollback (db : DB) (version : PyStr) : DB × List PyStr :=
  (db,
   [str "Please run the DOWN migration manually from the SQL file.",
    str "Then update the _migrations table:",
    str "  UPDATE _migrations SET status = rolled_back WHERE version = " ++ version])

/-- The action selected by the `__main__` block. -/
inductive CliAction where
  | runMigrate
  | showStatus
  | doRollback (version : PyStr)
  | usage
  deriving Repr, DecidableEq

/-- The `__main__` dispatch (lines 198-213) on `sys.argv[1:]`, paired with
the process exit code for that path.  No branch calls `sys.exit`: in
particular the usage branch is a bare `print`, after which the script
falls off the end and the process exits with code 0.  (`sys.exit(1)`
exists only inside `get_connection`, on a connection failure, which is
not part of the dispatch.) -/
def main_dispatch : List PyStr → CliAction × Nat
  | [] => (CliAction.runMigrate, 0)
  | cmd :: rest =>
    if cmd = str "status" then (CliAction.showStatus, 0)
    else if cmd = str "rollback" ∧ rest ≠ [] then
      (CliAction.doRollback (rest.headD []), 0)
    else (CliAction.usage, 0)

/- ### Helper lemmas -/

theorem map_mk_filename (l : List PyStr) :
    ((l.map (fun fn =>
        ({ version := versionOf fn, name := removeSqlOccurrences fn,
           filename := fn } : Migration))).map (fun m => m.filename)) = l := by
  induction l with
  | nil => rfl
  | cons x xs ih => simp only [List.map_cons, ih]

theorem startsWithList_iff : ∀ p s : PyStr,
    startsWithList p s = true ↔ ∃ t, s = p ++ t
  | [], s => by simp [startsWithList]
  | p :: ps, [] => by
    simp only [startsWithList, List.cons_append]
    constructor
    · intro h
      exact Bool.noConfusion h
    · rintro ⟨t, ht⟩
      exact List.noConfusion ht
  | p :: ps, c :: cs => by
    simp only [startsWithList, Bool.and_eq_true, beq_iff_eq, List.cons_append]
    rw [startsWithList_iff ps cs]
    constructor
    · rintro ⟨rfl, t, rfl⟩
      exact ⟨t, rfl⟩
    · rintro ⟨t, ht⟩
      obtain ⟨rfl, rfl⟩ : p = c ∧ cs = ps ++ t :=
        ⟨(List.cons.inj ht).1.symm, (List.cons.inj ht).2⟩
      exact ⟨rfl, t, rfl⟩

theorem endsWithList_iff (suf s : PyStr) :
    endsWithList suf s = true ↔ ∃ t, s = t ++ suf := by
  unfold endsWithList
  rw [startsWithList_iff]
  constructor
  · rintro ⟨t, ht⟩
    refine ⟨t.reverse, ?_⟩
    have h2 := congrArg List.reverse ht
    simpa using h2
  · rintro ⟨t, rfl⟩
    exact ⟨t.reverse, by simp⟩

theorem splitOnChar_ne_nil (sep : Char) : ∀ s : PyStr, splitOnChar sep s ≠ []
  | [] => by simp [splitOnChar]
  | c :: cs => by
    unfold splitOnChar
    by_cases h : c = sep
    · simp [h]
    · rw [if_neg h]
      cases hs : splitOnChar sep cs with
      | nil => simp
      | cons r rs => simp

theorem versionOf_eq_takeWhile : ∀ f : PyStr,
    versionOf f = f.takeWhile (fun c => c != '_')
  | [] => rfl
  | c :: cs => by
    by_cases hc : c = '_'
    · subst hc
      simp [versionOf, splitOnChar, List.takeWhile]
    · have hrec := versionOf_eq_takeWhile cs
      have hcne : (c != '_') = true := by simp [bne_iff_ne, hc]
      unfold versionOf at hrec ⊢
      simp only [splitOnChar, if_neg hc]
      cases hs : splitOnChar '_' cs with
      | nil => exact absurd hs (splitOnChar_ne_nil '_' cs)
      | cons r rs =>
        rw [hs] at hrec
        simp only [List.takeWhile_cons, hcne, if_true]
        rw [← hrec]

/-- A migration taken from the attempt events of `runLoop` is one of the
migrations the loop was given. -/
theorem attemptsOf_runLoop_subset (env : Env) :
    ∀ (l : List Migration) (db : DB) (m : Migration),
      m ∈ attemptsOf (runLoop env db l).2 → m ∈ l := by
  intro l
  induction l with
  | nil =>
    intro db m h
    simp [runLoop, attemptsOf] at h
  | cons x xs ih =>
    intro db m h
    unfold runLoop at h
    by_cases hx : (apply_migration env db x).1 = true
    · rw [if_pos hx] at h
      have h2 : m ∈ x ::
          attemptsOf (runLoop env (tick (apply_migration env db x).2.1) xs).2 := h
      rcases List.mem_cons.mp h2 with h3 | h3
      · exact h3 ▸ List.mem_cons_self x xs
      · exact List.mem_cons_of_mem x (ih _ m h3)
    · rw [if_neg hx] at h
      have h2 : m ∈ [x] := h
      rcases List.mem_singleton.mp h2 with h3
      exact h3 ▸ List.mem_cons_self x xs

theorem takeWhile_underscore_eq_leadingDigits : ∀ f : PyStr,
    (f.takeWhile (fun c => c != '_')).all Char.isDigit = true →
    f.takeWhile (fun c => c != '_') = leadingDigits f
  | [] => fun _ => rfl
  | c :: cs => by
    intro h
    unfold leadingDigits
    by_cases hc : c = '_'
    · subst hc
      simp [List.takeWhile_cons]
    · have hcne : (c != '_') = true := by simp [bne_iff_ne, hc]
      rw [List.takeWhile_cons, hcne, if_pos rfl] at h
      rw [List.all_cons, Bool.and_eq_true] at h
      rw [List.takeWhile_cons, hcne, if_pos rfl, List.takeWhile_cons, h.1, if_pos rfl]
      have hrec := takeWhile_underscore_eq_leadingDigits cs h.2
      unfold leadingDigits at hrec
      rw [hrec]

/- ### Claim C1 -/

/-- Two discovered scripts with pairwise-distinct versions `1` and `10`. -/
def c1listing : List PyStr := [str "1_a.sql", str "10_b.sql"]

/-- Claim C1 is false as stated: with scripts `1_a.sql` and `10_b.sql`
(distinct versions `1` and `10`), the sorted-by-filename walk visits
`10_b.sql` first (`'0' < '_'` in code-point order), so the apply attempts
run version `10` before version `1` — not ascending version order, neither
as strings (`1 < 10` lexicographically) nor numerically (`10 > 1`).  The
listing order does not matter; the outcome is the same for the reversed
listing. -/
theorem C1_counterexample :
    (get_pending_migrations c1listing).map (fun m => m.version) =
      [str "10", str "1"] ∧
    (get_pending_migrations c1listing.reverse).map (fun m => m.version) =
      [str "10", str "1"] ∧
    str "10" ≠ str "1" ∧
    lexLt (str "10") (str "1") = false ∧
    lexLt (str "1") (str "10") = true ∧
    digitsToNat (str "10") = 10 ∧ digitsToNat (str "1") = 1 ∧
    ¬ (10 : Nat) < 1 := by
  decide

/-- Claim C1 (amended): the apply attempts occur in ascending lexicographic
FILENAME order, regardless of the order in which the filesystem listing
returns the names; this coincides with ascending version order only when
the filename sort agrees with the version sort (e.g. fixed-width,
zero-padded version prefixes). -/
theorem C1_apply_order (listing listing' : List PyStr)
    (hp : listing.Perm listing') :
    List.Sorted lexLe ((get_pending_migrations listing).map (fun m => m.filename)) ∧
    get_pending_migrations listing = get_pending_migrations listing' := by
  constructor
  · unfold get_pending_migrations
    rw [map_mk_filename]
    exact List.Pairwise.sublist (List.filter_sublist _)
      (List.sorted_insertionSort lexLe listing)
  · unfold get_pending_migrations sortedListing
    have hs : List.insertionSort lexLe listing = List.insertionSort lexLe listing' :=
      List.eq_of_perm_of_sorted
        ((List.perm_insertionSort lexLe listing).trans
          (hp.trans (List.perm_insertionSort lexLe listing').symm))
        (List.sorted_insertionSort lexLe listing)
        (List.sorted_insertionSort lexLe listing')
    rw [hs]

def c1wA : List PyStr := [str "002_seed.sql", str "001_init.sql", str "notes.txt"]

def c1wB : List PyStr := [str "notes.txt", str "001_init.sql", str "002_seed.sql"]

theorem C1_apply_order_witness :
    List.Sorted lexLe ((get_pending_migrations c1wA).map (fun m => m.filename)) ∧
    get_pending_migrations c1wA = get_pending_migrations c1wB :=
  C1_apply_order c1wA c1wB (by decide)

/- ### Claim C2 -/

/-- Claim C2 is false in its version clause: `12ab_x.sql` is discovered
(ends in `.sql`, starts with a digit), but the recorded version is the
whole prefix before the first underscore, `12ab`, not the leading run of
digits `12`. -/
theorem C2_counterexample :
    isMigrationFile (str "12ab_x.sql") = true ∧
    versionOf (str "12ab_x.sql") = str "12ab" ∧
    leadingDigits (str "12ab_x.sql") = str "12" ∧
    versionOf (str "12ab_x.sql") ≠ leadingDigits (str "12ab_x.sql") := by
  decide

/-- Claim C2 (amended): a file is discovered iff its name ends in `.sql`
and begins with a digit; the recorded version is the prefix of the
filename before the first underscore (Python `filename.split('_')[0]`),
which equals the leading run of digits exactly when that prefix consists
of digits only. -/
theorem C2_discovery (f : PyStr) :
    (isMigrationFile f = true ↔
      ((∃ t, f = t ++ str ".sql") ∧ ∃ c cs, f = c :: cs ∧ c.isDigit = true)) ∧
    versionOf f = f.takeWhile (fun c => c != '_') ∧
    ((f.takeWhile (fun c => c != '_')).all Char.isDigit = true →
      versionOf f = leadingDigits f) := by
  refine ⟨?_, versionOf_eq_takeWhile f, ?_⟩
  · cases f with
    | nil =>
      constructor
      · intro h
        simp [isMigrationFile, str] at h
      · rintro ⟨-, c, cs, hcs, -⟩
        exact List.noConfusion hcs
    | cons c cs =>
      unfold isMigrationFile
      rw [Bool.and_eq_true, endsWithList_iff]
      constructor
      · rintro ⟨⟨t, ht⟩, hd⟩
        exact ⟨⟨t, ht⟩, c, cs, rfl, hd⟩
      · rintro ⟨⟨t, ht⟩, c', cs', hcs, hd⟩
        obtain ⟨rfl, rfl⟩ : c' = c ∧ cs' = cs :=
          ⟨(List.cons.inj hcs).1.symm, (List.cons.inj hcs).2.symm⟩
        exact ⟨⟨t, ht⟩, hd⟩
  · intro h
    exact (versionOf_eq_takeWhile f).trans
      (takeWhile_underscore_eq_leadingDigits f h)

theorem C2_discovery_witness :
    versionOf (str "001_init.sql") = leadingDigits (str "001_init.sql") :=
  (C2_discovery (str "001_init.sql")).2.2 (by decide)

/- ### Claim C7 -/

/-- Claim C7 is false in its exit-code clause: an unrecognized invocation
(here `frobnicate`) selects the usage branch, which only prints — the
process then falls off the end of the script and exits with code 0, not a
non-zero code. -/
theorem C7_counterexample :
    (main_dispatch [str "frobnicate"]).1 = CliAction.usage ∧
    (main_dispatch [str "frobnicate"]).2 = 0 := by
  decide

/-- Claim C7 (amended): every invocation whose arguments are neither
empty, nor begin with `status`, nor are `rollback` followed by a version,
prints the usage message and exits with code 0 (the usage branch performs
no `sys.exit`, so the exit is the interpreter's normal code-0 exit). -/
theorem C7_cli_usage (args : List PyStr) (cmd : PyStr) (rest : List PyStr)
    (hargs : args = cmd :: rest)
    (hstatus : cmd ≠ str "status")
    (hrb : ¬(cmd = str "rollback" ∧ rest ≠ [])) :
    main_dispatch args = (CliAction.usage, 0) := by
  subst hargs
  simp only [main_dispatch]
  rw [if_neg hstatus, if_neg hrb]

theorem C7_cli_usage_witness :
    main_dispatch [str "rollback"] = (CliAction.usage, 0) :=
  C7_cli_usage [str "rollback"] (str "rollback") [] rfl (by decide) (by decide)

/- ### Claim C3 -/

theorem mem_get_applied_of_row (db : DB) (r : Row) (hr : r ∈ db.rows)
    (hs : r.status = MigStatus.applied) :
    r.version ∈ get_applied_migrations db := by
  unfold get_applied_migrations
  exact List.mem_map_of_mem _ (List.mem_filter.mpr ⟨hr, by simp [hs]⟩)

theorem attemptsOf_append_statusReport (evs : List Event) (rows : List Row) :
    attemptsOf (evs ++ [Event.statusReport rows]) = attemptsOf evs := by
  unfold attemptsOf
  rw [List.filterMap_append]
  simp

/-- Claim C3 (confirmed): a version that already has an `applied` tracking
row is never among the attempted migrations of a run — for every file
assignment `env.files`, i.e. even when the script's content on disk now
differs from whatever was applied earlier. -/
theorem C3_skip_applied (env : Env) (db : DB) (listing : List PyStr) (v : PyStr)
    (h : ∃ r ∈ db.rows, r.version = v ∧ r.status = MigStatus.applied) :
    v ∉ (attemptsOf (migrate env listing db).2).map (fun m => m.version) := by
  obtain ⟨r, hr, hv, hst⟩ := h
  intro hmem
  rw [List.mem_map] at hmem
  obtain ⟨m, hm, hver⟩ := hmem
  have hm2 : m ∈ migrateToApply db listing := by
    unfold migrate at hm
    rw [attemptsOf_append_statusReport] at hm
    exact attemptsOf_runLoop_subset env _ db m hm
  unfold migrateToApply at hm2
  rw [List.mem_filter, Bool.not_eq_true'] at hm2
  have happ : v ∈ get_applied_migrations db := hv ▸ mem_get_applied_of_row db r hr hst
  rw [← hver] at happ
  have hcon : (get_applied_migrations db).contains m.version = true :=
    List.elem_iff.mpr happ
  rw [hcon] at hm2
  exact Bool.noConfusion hm2.2

def row001 : Row :=
  { version := str "001"
    name := str "001_init"
    applied_at := 1
    applied_by := some (str "USER()")
    checksum := some (str "OLD CONTENT")
    execution_time_ms := some 0
    status := MigStatus.applied }

def env3 : Env :=
  { files := fun _ => str "NEW CONTENT"
    execStmt := fun _ => ExecResult.ok }

def db3 : DB := { rows := [row001], now := 2 }

theorem C3_skip_applied_witness :
    str "001" ∉ (attemptsOf (migrate env3 [str "001_init.sql"] db3).2).map
      (fun m => m.version) :=
  C3_skip_applied env3 db3 [str "001_init.sql"] (str "001") ⟨row001, by decide⟩

/- ### Statement loop lemmas (for C5 and C8) -/

/-- A statement's execution either succeeds or raises an error that the
idempotency filter of line 98 swallows. -/
def statementOutcomeSwallowed (env : Env) (s : PyStr) : Bool :=
  match env.execStmt s with
  | ExecResult.ok => true
  | ExecResult.err msg => isIgnorableError msg

theorem runStatements_swallowed (env : Env) :
    ∀ l : List PyStr,
      (∀ s ∈ l, shouldExecute s = true → statementOutcomeSwallowed env s = true) →
      runStatements env l = (l.filter shouldExecute, none)
  | [], _ => rfl
  | s :: rest, h => by
    have hrec := runStatements_swallowed env rest
      (fun t ht hte => h t (List.mem_cons_of_mem s ht) hte)
    simp only [runStatements]
    by_cases hs : shouldExecute s = true
    · rw [if_pos hs]
      have hsw := h s (List.mem_cons_self s rest) hs
      unfold statementOutcomeSwallowed at hsw
      cases he : env.execStmt s with
      | ok =>
        dsimp only
        rw [hrec]
        simp [List.filter_cons, hs]
      | err msg =>
        rw [he] at hsw
        dsimp only at hsw ⊢
        rw [if_pos hsw, hrec]
        simp [List.filter_cons, hs]
    · rw [if_neg hs, hrec]
      have hs' : shouldExecute s = false := by
        cases hb : shouldExecute s
        · rfl
        · exact absurd hb hs
      simp [List.filter_cons, hs']

theorem runStatements_append_swallowed (env : Env) :
    ∀ (pre tail : List PyStr),
      (∀ t ∈ pre, shouldExecute t = true → statementOutcomeSwallowed env t = true) →
      runStatements env (pre ++ tail) =
        (pre.filter shouldExecute ++ (runStatements env tail).1,
         (runStatements env tail).2)
  | [], tail, _ => by simp
  | t :: pre, tail, h => by
    have hrec := runStatements_append_swallowed env pre tail
      (fun u hu hue => h u (List.mem_cons_of_mem t hu) hue)
    rw [List.cons_append]
    simp only [runStatements]
    by_cases ht : shouldExecute t = true
    · rw [if_pos ht]
      have hsw := h t (List.mem_cons_self t pre) ht
      unfold statementOutcomeSwallowed at hsw
      cases he : env.execStmt t with
      | ok =>
        dsimp only
        rw [hrec]
        simp [List.filter_cons, ht]
      | err msg =>
        rw [he] at hsw
        dsimp only at hsw ⊢
        rw [if_pos hsw, hrec]
        simp [List.filter_cons, ht]
    · rw [if_neg ht, hrec]
      have ht' : shouldExecute t = false := by
        cases hb : shouldExecute t
        · rfl
        · exact absurd hb ht
      simp [List.filter_cons, ht']

theorem runStatements_cons_err (env : Env) (s : PyStr) (post : List PyStr)
    (msg : PyStr) (hs : shouldExecute s = true)
    (herr : env.execStmt s = ExecResult.err msg) :
    runStatements env (s :: post) =
      if isIgnorableError msg then
        (s :: (runStatements env post).1, (runStatements env post).2)
      else ([s], some msg) := by
  simp only [runStatements]
  rw [if_pos hs, herr]

theorem apply_migration_fst (env : Env) (db : DB) (m : Migration) :
    (apply_migration env db m).1 = scriptSucceeds env m := by
  unfold apply_migration scriptSucceeds
  cases (runStatements env (splitStatements (env.files m.filename))).2 <;> rfl

theorem apply_migration_failed (env : Env) (db : DB) (m : Migration)
    (h : scriptSucceeds env m = false) :
    (apply_migration env db m).1 = false ∧
    (apply_migration env db m).2.1 = recordFailed db m.version m.name := by
  unfold scriptSucceeds at h
  unfold apply_migration
  cases he : (runStatements env (splitStatements (env.files m.filename))).2 with
  | none => rw [he] at h; exact absurd h (by simp)
  | some msg => exact ⟨rfl, rfl⟩

theorem apply_migration_ok (env : Env) (db : DB) (m : Migration)
    (h : scriptSucceeds env m = true) :
    (apply_migration env db m).1 = true ∧
    (apply_migration env db m).2.1 =
      recordApplied db m.version m.name (md5 (env.files m.filename)) 0 := by
  unfold scriptSucceeds at h
  unfold apply_migration
  cases he : (runStatements env (splitStatements (env.files m.filename))).2 with
  | none => exact ⟨rfl, rfl⟩
  | some msg => rw [he] at h; exact absurd h (by simp)

theorem recordFailed_mem (db : DB) (version name : PyStr) :
    ∃ r ∈ (recordFailed db version name).rows,
      r.version = version ∧ r.status = MigStatus.failed := by
  unfold recordFailed
  by_cases h : db.rows.any (fun q => q.version = version) = true
  · rw [if_pos h]
    rw [List.any_eq_true] at h
    obtain ⟨q, hq, hqv⟩ := h
    have hqv' : q.version = version := of_decide_eq_true hqv
    refine ⟨{ q with status := MigStatus.failed }, ?_, hqv', rfl⟩
    exact List.mem_map.mpr ⟨q, hq, by rw [if_pos hqv']⟩
  · rw [if_neg h]
    exact ⟨_, List.mem_append_right _ (List.mem_singleton_self _), rfl, rfl⟩

/- ### Claim C5 -/

/-- Claim C5 (confirmed): when the statement at some position of a script
raises a database error, the error is swallowed and execution continues if
and only if the message contains `Duplicate` or `already exists`; any
other error stops the remaining statements and the script's tracking row
is recorded as `failed`. -/
theorem C5_statement_error_policy (env : Env) (db : DB) (m : Migration)
    (pre post : List PyStr) (s msg : PyStr)
    (hm : splitStatements (env.files m.filename) = pre ++ s :: post)
    (hpre : ∀ t ∈ pre, shouldExecute t = true → statementOutcomeSwallowed env t = true)
    (hs : shouldExecute s = true)
    (herr : env.execStmt s = ExecResult.err msg) :
    (isIgnorableError msg = true →
      runStatements env (pre ++ s :: post) =
        (pre.filter shouldExecute ++ s :: (runStatements env post).1,
         (runStatements env post).2)) ∧
    (isIgnorableError msg = false →
      runStatements env (pre ++ s :: post) =
        (pre.filter shouldExecute ++ [s], some msg) ∧
      (apply_migration env db m).1 = false ∧
      ∃ r ∈ (apply_migration env db m).2.1.rows,
        r.version = m.version ∧ r.status = MigStatus.failed) ∧
    isIgnorableError msg =
      (containsSubstring (str "Duplicate") msg ||
        containsSubstring (str "already exists") msg) := by
  have happ := runStatements_append_swallowed env pre (s :: post) hpre
  have hcons := runStatements_cons_err env s post msg hs herr
  refine ⟨?_, ?_, rfl⟩
  · intro hig
    rw [happ, hcons, if_pos hig]
  · intro hig
    have hig' : ¬ isIgnorableError msg = true := by
      rw [hig]
      exact Bool.false_ne_true
    have hrun : runStatements env (pre ++ s :: post) =
        (pre.filter shouldExecute ++ [s], some msg) := by
      rw [happ, hcons, if_neg hig']
    have hfail : scriptSucceeds env m = false := by
      unfold scriptSucceeds
      rw [hm, hrun]
      rfl
    obtain ⟨h1, h2⟩ := apply_migration_failed env db m hfail
    refine ⟨hrun, h1, ?_⟩
    rw [h2]
    exact recordFailed_mem db m.version m.name

def env5 : Env :=
  { files := fun _ => str "CREATE TABLE a (x INT);CREATE TABLE b (y INT)"
    execStmt := fun s =>
      if s = str "CREATE TABLE a (x INT)" then ExecResult.err (str "1064 syntax error")
      else ExecResult.ok }

def db5 : DB := { rows := [], now := 0 }

def m5 : Migration :=
  { version := str "001", name := str "001_x", filename := str "001_x.sql" }

theorem C5_statement_error_policy_witness :
    runStatements env5
        ([] ++ str "CREATE TABLE a (x INT)" :: [str "CREATE TABLE b (y INT)"]) =
      (([] : List PyStr).filter shouldExecute ++ [str "CREATE TABLE a (x INT)"],
       some (str "1064 syntax error")) ∧
    (apply_migration env5 db5 m5).1 = false := by
  have h := C5_statement_error_policy env5 db5 m5 [] [str "CREATE TABLE b (y INT)"]
    (str "CREATE TABLE a (x INT)") (str "1064 syntax error")
    (by decide) (fun t ht _ => absurd ht (List.not_mem_nil t)) (by decide) (by decide)
  exact ⟨(h.2.1 (by decide)).1, (h.2.1 (by decide)).2.1⟩

/- ### Claim C8 -/

/-- Modelled from the spec: a fragment is a "pure comment" when every one
of its lines is blank or a `--` line comment after trimming, or when the
whole trimmed fragment is a single `/* .. */` block.  (The code has no
such notion; it only looks at the first two characters of the fragment.) -/
def spec_isPureComment (s : PyStr) : Bool :=
  ((splitOnChar '\n' s).all fun line =>
      (stripList line).isEmpty || startsWithList (str "--") (stripList line)) ||
    (startsWithList (str "/*") (stripList s) && endsWithList (str "*/") (stripList s))

/-- Modelled from the spec: the fragments the spec says get executed —
split on `;`, drop empty fragments and pure comments, keep the rest. -/
def spec_executedFragments (content : PyStr) : List PyStr :=
  (((splitOnChar ';' content).map stripList).filter (fun s => !s.isEmpty)).filter
    (fun s => !spec_isPureComment s)

def c8content : PyStr :=
  str "-- note\nCREATE TABLE t (x INT);INSERT INTO t VALUES (1)"

def env8 : Env := { files := fun _ => c8content, execStmt := fun _ => ExecResult.ok }

/-- Claim C8 is false in its "pure comments" clause: for a script whose
first fragment starts with a `--` line comment but continues with a real
statement (`-- note\nCREATE TABLE ..`), the code discards the whole
fragment — `startswith('--')` looks only at the fragment head — although
the fragment is not a pure comment and the spec says it is executed. -/
theorem C8_counterexample :
    (runStatements env8 (splitStatements c8content)).1 =
      [str "INSERT INTO t VALUES (1)"] ∧
    spec_executedFragments c8content =
      [str "-- note\nCREATE TABLE t (x INT)", str "INSERT INTO t VALUES (1)"] ∧
    (runStatements env8 (splitStatements c8content)).1 ≠
      spec_executedFragments c8content := by
  decide

/-- Claim C8 (amended): applying a script splits the content on `;`,
trims each fragment, and — when no executed statement raises a
non-ignorable error, i.e. each one either succeeds or raises an error the
`Duplicate` / `already exists` filter swallows — executes exactly the
fragments that are non-empty and do not BEGIN with `--` or `/*`, in file
order.  (Fragments merely beginning with a comment are dropped whole.) -/
theorem C8_script_split (env : Env) (content : PyStr)
    (hok : ∀ s ∈ splitStatements content, shouldExecute s = true →
      statementOutcomeSwallowed env s = true) :
    (runStatements env (splitStatements content)).1 =
      ((splitOnChar ';' content).map stripList).filter
        (fun s => !s.isEmpty && !startsWithList (str "--") s &&
          !startsWithList (str "/*") s) ∧
    (runStatements env (splitStatements content)).2 = none := by
  have h := runStatements_swallowed env (splitStatements content) hok
  rw [h]
  refine ⟨?_, rfl⟩
  show (splitStatements content).filter shouldExecute = _
  unfold splitStatements
  rw [List.filter_filter]
  apply List.filter_congr
  intro s _
  unfold shouldExecute
  cases he : s.isEmpty <;>
    cases h1 : startsWithList (str "--") s <;>
      cases h2 : startsWithList (str "/*") s <;> rfl

/-- Execution environment whose first statement raises a swallowed
duplicate-entry error — a run the amended claim covers although not every
statement succeeds. -/
def env8dup : Env :=
  { files := fun _ => str "a; b"
    execStmt := fun s =>
      if s = str "a" then ExecResult.err (str "1062 Duplicate entry") else ExecResult.ok }

theorem C8_script_split_witness :
    (runStatements env8dup (splitStatements (str "a; b"))).1 =
      ((splitOnChar ';' (str "a; b")).map stripList).filter
        (fun s => !s.isEmpty && !startsWithList (str "--") s &&
          !startsWithList (str "/*") s) ∧
    (runStatements env8dup (splitStatements (str "a; b"))).2 = none :=
  C8_script_split env8dup (str "a; b") (by decide)

/- ### Claim C4 -/

theorem attemptsOf_cons_attempt (m : Migration) (tr : List PyStr) (b : Bool)
    (evs : List Event) :
    attemptsOf (Event.attempt m tr b :: evs) = m :: attemptsOf evs := rfl

theorem runLoop_cons_success (env : Env) (db : DB) (m : Migration)
    (rest : List Migration) (h : scriptSucceeds env m = true) :
    runLoop env db (m :: rest) =
      ((runLoop env (tick (apply_migration env db m).2.1) rest).1,
       Event.attempt m (apply_migration env db m).2.2 true ::
         (runLoop env (tick (apply_migration env db m).2.1) rest).2) := by
  simp [runLoop, apply_migration_fst, h]

theorem runLoop_cons_failure (env : Env) (db : DB) (m : Migration)
    (rest : List Migration) (h : scriptSucceeds env m = false) :
    runLoop env db (m :: rest) =
      (tick (apply_migration env db m).2.1,
       [Event.attempt m (apply_migration env db m).2.2 false]) := by
  simp [runLoop, apply_migration_fst, h]

theorem runLoop_halt (env : Env) :
    ∀ (l1 : List Migration) (m : Migration) (l2 : List Migration) (db : DB),
      (∀ x ∈ l1, scriptSucceeds env x = true) →
      scriptSucceeds env m = false →
      attemptsOf (runLoop env db (l1 ++ m :: l2)).2 = l1 ++ [m] ∧
      (∃ r ∈ (runLoop env db (l1 ++ m :: l2)).1.rows,
        r.version = m.version ∧ r.status = MigStatus.failed)
  | [], m, l2, db, _, hm => by
    rw [List.nil_append, runLoop_cons_failure env db m l2 hm]
    refine ⟨rfl, ?_⟩
    obtain ⟨-, h2⟩ := apply_migration_failed env db m hm
    show ∃ r ∈ (tick (apply_migration env db m).2.1).rows, _
    rw [h2]
    exact recordFailed_mem db m.version m.name
  | x :: l1, m, l2, db, h1, hm => by
    have hx := h1 x (List.mem_cons_self x l1)
    rw [List.cons_append, runLoop_cons_success env db x _ hx]
    have hrec := runLoop_halt env l1 m l2 (tick (apply_migration env db x).2.1)
      (fun y hy => h1 y (List.mem_cons_of_mem x hy)) hm
    refine ⟨?_, hrec.2⟩
    rw [attemptsOf_cons_attempt, hrec.1, List.cons_append]

theorem mem_take_getElem {α : Type} :
    ∀ (l : List α) (k : Nat) (x : α), x ∈ l.take k → ∃ j, j < k ∧ l[j]? = some x
  | [], k, x, h => by simp at h
  | a :: l, 0, x, h => by simp at h
  | a :: l, k+1, x, h => by
    rw [List.take_succ_cons] at h
    rcases List.mem_cons.mp h with h2 | h2
    · exact ⟨0, Nat.succ_pos k, by rw [h2]; simp⟩
    · obtain ⟨j, hj, hget⟩ := mem_take_getElem l k x h2
      exact ⟨j + 1, Nat.succ_lt_succ hj, by simpa using hget⟩

/-- Claim C4 (confirmed): if the script at position `k` of the apply set
fails and those before it succeed, the run attempts exactly positions
`0..k` (later scripts are not attempted), the tracking table records the
failing script's version with status `failed`, and the run's final event
is still the status report. -/
theorem C4_halt_on_failure (env : Env) (db : DB) (listing : List PyStr)
    (k : Nat) (mk : Migration)
    (hk : (migrateToApply db listing)[k]? = some mk)
    (hfail : scriptSucceeds env mk = false)
    (hbefore : ∀ j mj, j < k → (migrateToApply db listing)[j]? = some mj →
      scriptSucceeds env mj = true) :
    attemptsOf (migrate env listing db).2 = (migrateToApply db listing).take (k + 1) ∧
    (∃ r ∈ (migrate env listing db).1.rows,
      r.version = mk.version ∧ r.status = MigStatus.failed) ∧
    (migrate env listing db).2.getLast? =
      some (Event.statusReport (show_status (migrate env listing db).1)) := by
  obtain ⟨hklt, hkget⟩ := List.getElem?_eq_some.mp hk
  have hsplit : migrateToApply db listing =
      (migrateToApply db listing).take k ++
        mk :: (migrateToApply db listing).drop (k + 1) := by
    conv_lhs => rw [← List.take_append_drop k (migrateToApply db listing)]
    rw [List.drop_eq_getElem_cons hklt, hkget]
  have h1 : ∀ x ∈ (migrateToApply db listing).take k, scriptSucceeds env x = true := by
    intro x hx
    obtain ⟨j, hj, hget⟩ := mem_take_getElem (migrateToApply db listing) k x hx
    exact hbefore j x hj hget
  have hrun : runLoop env db (migrateToApply db listing) =
      runLoop env db ((migrateToApply db listing).take k ++
        mk :: (migrateToApply db listing).drop (k + 1)) := by
    rw [← hsplit]
  have hhalt := runLoop_halt env ((migrateToApply db listing).take k) mk
    ((migrateToApply db listing).drop (k + 1)) db h1 hfail
  refine ⟨?_, ?_, ?_⟩
  · show attemptsOf ((runLoop env db (migrateToApply db listing)).2 ++
      [Event.statusReport _]) = _
    rw [attemptsOf_append_statusReport, hrun, hhalt.1, List.take_succ, hk]
    rfl
  · show ∃ r ∈ (runLoop env db (migrateToApply db listing)).1.rows, _
    rw [hrun]
    exact hhalt.2
  · exact List.getLast?_concat _

def env4 : Env :=
  { files := fun fn =>
      if fn = str "001_a.sql" then str "BROKEN STATEMENT" else str "GOOD STATEMENT"
    execStmt := fun s =>
      if s = str "BROKEN STATEMENT" then ExecResult.err (str "1064 syntax error")
      else ExecResult.ok }

def db4 : DB := { rows := [], now := 0 }

def listing4 : List PyStr := [str "001_a.sql", str "002_b.sql"]

def mig4 : Migration :=
  { version := str "001", name := str "001_a", filename := str "001_a.sql" }

theorem C4_halt_on_failure_witness :
    attemptsOf (migrate env4 listing4 db4).2 = (migrateToApply db4 listing4).take 1 ∧
    (migrate env4 listing4 db4).2.getLast? =
      some (Event.statusReport (show_status (migrate env4 listing4 db4).1)) := by
  have h := C4_halt_on_failure env4 db4 listing4 0 mig4 (by decide) (by decide)
    (fun j mj hj _ => absurd hj (Nat.not_lt_zero j))
  exact ⟨h.1, h.2.2⟩

/- ### Claim C6 -/

theorem get_applied_mem_iff (db : DB) (v : PyStr) :
    v ∈ get_applied_migrations db ↔
      ∃ r ∈ db.rows, r.status = MigStatus.applied ∧ r.version = v := by
  unfold get_applied_migrations
  rw [List.mem_map]
  constructor
  · rintro ⟨r, hr, rfl⟩
    rw [List.mem_filter] at hr
    exact ⟨r, hr.1, of_decide_eq_true hr.2, rfl⟩
  · rintro ⟨r, hr, hs, rfl⟩
    exact ⟨r, List.mem_filter.mpr ⟨hr, decide_eq_true hs⟩, rfl⟩

theorem recordApplied_applied_mono (db : DB) (version name checksum : PyStr)
    (exec_ms : Nat) (w : PyStr) (hw : w ∈ get_applied_migrations db) :
    w ∈ get_applied_migrations (recordApplied db version name checksum exec_ms) := by
  rw [get_applied_mem_iff] at hw ⊢
  obtain ⟨r, hr, hs, hv⟩ := hw
  unfold recordApplied
  by_cases h : db.rows.any (fun q => q.version = version) = true
  · rw [if_pos h]
    by_cases hrv : r.version = version
    · refine ⟨{ r with
          status := MigStatus.applied
          applied_at := db.now
          execution_time_ms := some exec_ms }, ?_, rfl, hv⟩
      exact List.mem_map.mpr ⟨r, hr, by rw [if_pos hrv]⟩
    · refine ⟨r, ?_, hs, hv⟩
      exact List.mem_map.mpr ⟨r, hr, by rw [if_neg hrv]⟩
  · rw [if_neg h]
    exact ⟨r, List.mem_append_left _ hr, hs, hv⟩

theorem recordApplied_mem_self (db : DB) (version name checksum : PyStr)
    (exec_ms : Nat) :
    version ∈ get_applied_migrations (recordApplied db version name checksum exec_ms) := by
  rw [get_applied_mem_iff]
  unfold recordApplied
  by_cases h : db.rows.any (fun q => q.version = version) = true
  · rw [if_pos h]
    rw [List.any_eq_true] at h
    obtain ⟨q, hq, hqv⟩ := h
    have hqv' : q.version = version := of_decide_eq_true hqv
    refine ⟨{ q with
        status := MigStatus.applied
        applied_at := db.now
        execution_time_ms := some exec_ms }, ?_, rfl, hqv'⟩
    exact List.mem_map.mpr ⟨q, hq, by rw [if_pos hqv']⟩
  · rw [if_neg h]
    exact ⟨_, List.mem_append_right _ (List.mem_singleton_self _), rfl, rfl⟩

theorem runLoop_success_applied (env : Env) :
    ∀ (l : List Migration) (db : DB),
      (∀ m ∈ l, scriptSucceeds env m = true) →
      (∀ w, w ∈ get_applied_migrations db →
        w ∈ get_applied_migrations (runLoop env db l).1) ∧
      (∀ m ∈ l, m.version ∈ get_applied_migrations (runLoop env db l).1)
  | [], _, _ => ⟨fun _ hw => hw, fun m hm => absurd hm (List.not_mem_nil m)⟩
  | x :: l, db, h => by
    have hx := h x (List.mem_cons_self x l)
    rw [runLoop_cons_success env db x l hx]
    obtain ⟨-, h2⟩ := apply_migration_ok env db x hx
    have hrec := runLoop_success_applied env l (tick (apply_migration env db x).2.1)
      (fun y hy => h y (List.mem_cons_of_mem x hy))
    constructor
    · intro w hw
      apply hrec.1
      have hw2 : w ∈ get_applied_migrations (apply_migration env db x).2.1 := by
        rw [h2]
        exact recordApplied_applied_mono db _ _ _ _ w hw
      exact hw2
    · intro m hm
      rcases List.mem_cons.mp hm with h3 | h3
      · subst h3
        apply hrec.1
        have hw2 : m.version ∈ get_applied_migrations (apply_migration env db m).2.1 := by
          rw [h2]
          exact recordApplied_mem_self db m.version m.name _ 0
        exact hw2
      · exact hrec.2 m h3

/-- Claim C6 (confirmed): when every script of the apply set succeeds,
running `migrate` a second time on the resulting database (same listing,
same files) attempts zero scripts and returns the database unchanged —
rows and clock identical. -/
theorem C6_idempotent_rerun (env : Env) (db : DB) (listing : List PyStr)
    (hall : ∀ m ∈ migrateToApply db listing, scriptSucceeds env m = true) :
    attemptsOf (migrate env listing (migrate env listing db).1).2 = [] ∧
    (migrate env listing (migrate env listing db).1).1 = (migrate env listing db).1 := by
  have hsa := runLoop_success_applied env (migrateToApply db listing) db hall
  set db1 := (migrate env listing db).1 with hdb1
  have hempty : migrateToApply db1 listing = [] := by
    unfold migrateToApply
    rw [List.filter_eq_nil_iff]
    intro m hm hcontra
    rw [Bool.not_eq_true'] at hcontra
    have hver : m.version ∈ get_applied_migrations db1 := by
      by_cases hc : (get_applied_migrations db).contains m.version = true
      · exact hsa.1 m.version (List.elem_iff.mp hc)
      · have hc' : (get_applied_migrations db).contains m.version = false := by
          cases hb : (get_applied_migrations db).contains m.version
          · rfl
          · exact absurd hb hc
        have hmem : m ∈ migrateToApply db listing :=
          List.mem_filter.mpr ⟨hm, by rw [hc']; rfl⟩
        exact hsa.2 m hmem
    have hcontra2 : List.elem m.version (get_applied_migrations db1) = false := hcontra
    have htrue := List.elem_iff.mpr hver
    rw [htrue] at hcontra2
    exact Bool.noConfusion hcontra2
  constructor
  · simp only [migrate]
    rw [hempty]
    rfl
  · simp only [migrate]
    rw [hempty]
    rfl

def env6 : Env :=
  { files := fun _ => str "CREATE TABLE d (x INT)"
    execStmt := fun _ => ExecResult.ok }

def db6 : DB := { rows := [], now := 0 }

def listing6 : List PyStr := [str "001_a.sql", str "002_b.sql"]

theorem C6_idempotent_rerun_witness :
    attemptsOf (migrate env6 listing6 (migrate env6 listing6 db6).1).2 = [] ∧
    (migrate env6 listing6 (migrate env6 listing6 db6).1).1 =
      (migrate env6 listing6 db6).1 :=
  C6_idempotent_rerun env6 db6 listing6 (by decide)

/- ### Claim C9 -/

theorem recordFailed_rows_of_mem (db : DB) (version name : PyStr)
    (h : db.rows.any (fun q => q.version = version) = true) :
    (recordFailed db version name).rows =
      db.rows.map (fun q =>
        if q.version = version then { q with status := MigStatus.failed } else q) := by
  unfold recordFailed
  rw [if_pos h]

theorem recordApplied_rows_of_mem (db : DB) (version name checksum : PyStr)
    (exec_ms : Nat)
    (h : db.rows.any (fun q => q.version = version) = true) :
    (recordApplied db version name checksum exec_ms).rows =
      db.rows.map (fun q =>
        if q.version = version then
          { q with
            status := MigStatus.applied
            applied_at := db.now
            execution_time_ms := some exec_ms }
        else q) := by
  unfold recordApplied
  rw [if_pos h]

def row9 : Row :=
  { version := str "001"
    name := str "001_init"
    applied_at := 5
    applied_by := some (str "USER()")
    checksum := some (str "OLD CONTENT")
    execution_time_ms := some 7
    status := MigStatus.applied }

def db9 : DB := { rows := [row9], now := 9 }

def env9 : Env :=
  { files := fun _ => str "ALTER TABLE x"
    execStmt := fun _ => ExecResult.err (str "1064 syntax error") }

def m9 : Migration :=
  { version := str "001", name := str "001_init", filename := str "001_init.sql" }

/-- Claim C9 is false: recording a failure for version `001`, whose
tracking row was created at time 5, at a moment when the clock reads 9,
flips the row's status to `failed` but leaves `applied_at` at 5 — the
failure upsert's `ON DUPLICATE KEY UPDATE` list contains only `status`,
and the `applied_at` column has no `ON UPDATE CURRENT_TIMESTAMP` clause.
So `applied_at` does not hold the timestamp of the most recent status
transition. -/
theorem C9_counterexample :
    (apply_migration env9 db9 m9).1 = false ∧
    (apply_migration env9 db9 m9).2.1.rows =
      [{ row9 with status := MigStatus.failed }] ∧
    ({ row9 with status := MigStatus.failed } : Row).applied_at = 5 ∧
    db9.now = 9 ∧
    (5 : Nat) ≠ 9 := by
  decide

/-- Claim C9 (amended): `applied_at` is set at row creation and updated on
a successful (re-)apply; the failure-path upsert for a version that
already has a tracking row updates only `status`, leaving `applied_at`
(and every other column) unchanged. -/
theorem C9_applied_at (env : Env) (db : DB) (m : Migration) (r : Row)
    (hr : r ∈ db.rows) (hv : r.version = m.version) :
    (scriptSucceeds env m = false →
      (apply_migration env db m).2.1.rows =
        db.rows.map (fun q =>
          if q.version = m.version then { q with status := MigStatus.failed } else q) ∧
      { r with status := MigStatus.failed } ∈ (apply_migration env db m).2.1.rows ∧
      ({ r with status := MigStatus.failed } : Row).applied_at = r.applied_at) ∧
    (scriptSucceeds env m = true →
      (apply_migration env db m).2.1.rows =
        db.rows.map (fun q =>
          if q.version = m.version then
            { q with
              status := MigStatus.applied
              applied_at := db.now
              execution_time_ms := some 0 }
          else q)) := by
  have hany : db.rows.any (fun q => q.version = m.version) = true :=
    List.any_eq_true.mpr ⟨r, hr, decide_eq_true hv⟩
  constructor
  · intro hfail
    obtain ⟨-, h2⟩ := apply_migration_failed env db m hfail
    rw [h2, recordFailed_rows_of_mem db m.version m.name hany]
    refine ⟨rfl, ?_, rfl⟩
    exact List.mem_map.mpr ⟨r, hr, by rw [if_pos hv]⟩
  · intro hok
    obtain ⟨-, h2⟩ := apply_migration_ok env db m hok
    rw [h2, recordApplied_rows_of_mem db m.version m.name _ 0 hany]

theorem C9_applied_at_witness :
    (apply_migration env9 db9 m9).2.1.rows =
      db9.rows.map (fun q =>
        if q.version = m9.version then { q with status := MigStatus.failed } else q) ∧
    ({ row9 with status := MigStatus.failed } : Row).applied_at = row9.applied_at := by
  have h := C9_applied_at env9 db9 m9 row9 (by decide) (by decide)
  exact ⟨(h.1 (by decide)).1, (h.1 (by decide)).2.2⟩

/- ### Claim C10 -/

theorem recordApplied_rows_cases (db : DB) (version name checksum : PyStr)
    (exec_ms : Nat) :
    ∀ r ∈ (recordApplied db version name checksum exec_ms).rows,
      r ∈ db.rows ∨ r.status = MigStatus.applied := by
  intro r hr
  unfold recordApplied at hr
  by_cases h : db.rows.any (fun q => q.version = version) = true
  · rw [if_pos h] at hr
    rw [List.mem_map] at hr
    obtain ⟨q, hq, hfq⟩ := hr
    by_cases hv : q.version = version
    · rw [if_pos hv] at hfq
      right
      rw [← hfq]
    · rw [if_neg hv] at hfq
      left
      rw [← hfq]
      exact hq
  · rw [if_neg h] at hr
    rcases List.mem_append.mp hr with h2 | h2
    · exact Or.inl h2
    · right
      rw [List.mem_singleton.mp h2]

theorem recordFailed_rows_cases (db : DB) (version name : PyStr) :
    ∀ r ∈ (recordFailed db version name).rows,
      r ∈ db.rows ∨ r.status = MigStatus.failed := by
  intro r hr
  unfold recordFailed at hr
  by_cases h : db.rows.any (fun q => q.version = version) = true
  · rw [if_pos h] at hr
    rw [List.mem_map] at hr
    obtain ⟨q, hq, hfq⟩ := hr
    by_cases hv : q.version = version
    · rw [if_pos hv] at hfq
      right
      rw [← hfq]
    · rw [if_neg hv] at hfq
      left
      rw [← hfq]
      exact hq
  · rw [if_neg h] at hr
    rcases List.mem_append.mp hr with h2 | h2
    · exact Or.inl h2
    · right
      rw [List.mem_singleton.mp h2]

theorem runLoop_rows_status (env : Env) :
    ∀ (l : List Migration) (db : DB) (r : Row),
      r ∈ (runLoop env db l).1.rows →
      r ∈ db.rows ∨ r.status = MigStatus.applied ∨ r.status = MigStatus.failed
  | [], _, _, hr => Or.inl hr
  | m :: l, db, r, hr => by
    by_cases hs : scriptSucceeds env m = true
    · rw [runLoop_cons_success env db m l hs] at hr
      have hr2 := runLoop_rows_status env l (tick (apply_migration env db m).2.1) r hr
      rcases hr2 with h2 | h2 | h2
      · obtain ⟨-, hrows⟩ := apply_migration_ok env db m hs
        have h3 : r ∈ (apply_migration env db m).2.1.rows := h2
        rw [hrows] at h3
        rcases recordApplied_rows_cases db _ _ _ _ r h3 with h4 | h4
        · exact Or.inl h4
        · exact Or.inr (Or.inl h4)
      · exact Or.inr (Or.inl h2)
      · exact Or.inr (Or.inr h2)
    · have hs' : scriptSucceeds env m = false := by
        cases hb : scriptSucceeds env m
        · rfl
        · exact absurd hb hs
      rw [runLoop_cons_failure env db m l hs'] at hr
      obtain ⟨-, hrows⟩ := apply_migration_failed env db m hs'
      have h3 : r ∈ (apply_migration env db m).2.1.rows := hr
      rw [hrows] at h3
      rcases recordFailed_rows_cases db _ _ r h3 with h4 | h4
      · exact Or.inl h4
      · exact Or.inr (Or.inr h4)

/-- Claim C10 (confirmed): every tracking row present after a run is
either an untouched pre-existing row or carries status `applied` or
`failed` — the runner never writes `pending` or `rolled_back` — and the
rollback command returns the database unchanged (it has no cursor and
performs no write). -/
theorem C10_status_writes (env : Env) (db : DB) (listing : List PyStr) (v : PyStr) :
    ((migrate env listing db).1.rows.all (fun r =>
      decide (r ∈ db.rows) || decide (r.status = MigStatus.applied) ||
        decide (r.status = MigStatus.failed))) = true ∧
    (rollback db v).1 = db := by
  refine ⟨?_, rfl⟩
  rw [List.all_eq_true]
  intro r hr
  have hr2 : r ∈ (runLoop env db (migrateToApply db listing)).1.rows := hr
  rcases runLoop_rows_status env (migrateToApply db listing) db r hr2 with h | h | h
  · simp [h]
  · simp [h]
  · simp [h]

example : isMigrationFile (str "001_init.sql") = true := by decide
example : isMigrationFile (str "readme.md") = false := by decide
example : versionOf (str "001_init.sql") = str "001" := by decide
example : removeSqlOccurrences (str "001_init.sql") = str "001_init" := by decide
example : (get_pending_migrations [str "10_b.sql", str "1_a.sql"]).map
    (fun m => m.version) = [str "10", str "1"] := by decide
example : splitStatements (str " a ; ; b ") = [str "a", str "b"] := by decide
example : isIgnorableError (str "1062 Duplicate entry") = true := by decide
example : isIgnorableError (str "syntax error") = false := by decide

end Migrate
